import Mathlib

/-!
A verification development for the rules engine of a two-player chess
application (Vue/Pinia front end).  The engine's data model and operations
are embedded shallowly below, translated from
`src/composables/useChessRules.ts`, `src/stores/gameStore.ts`,
`src/utils/notationUtils.ts` and the constant files.  Display labels
(the SAN strings attached to moves) and UI-only configuration are
presentation concerns and are not modelled; every other field of the
store's state is carried.  JavaScript arrays become `List`, `null`
becomes `Option`, string squares stay `String`.
-/

namespace Chess

/-- Piece colors, from `types/index.ts`. -/
inductive PieceColor where
  | white
  | black
deriving DecidableEq, Repr

/-- Piece kinds, from `types/index.ts`. -/
inductive PieceType where
  | pawn
  | rook
  | knight
  | bishop
  | queen
  | king
deriving DecidableEq, Repr

/-- A board square in algebraic form, e.g. `"e4"` (the source uses plain strings). -/
abbrev Square := String

/-- Move kind tags, from `types/index.ts`. -/
inductive MoveType where
  | normal
  | capture
  | castle
  | enPassant
  | promotion
deriving DecidableEq, Repr

/-- A chess piece, from `types/index.ts`. -/
structure Piece where
  id : String
  type : PieceType
  color : PieceColor
  square : Square
  hasMoved : Bool
deriving DecidableEq, Repr

/-- A move record; `fromSq` and `toSq` model the source's `from` and `to` fields (reserved words here).  The display-label field is presentation-only and not modelled. -/
structure Move where
  piece : Piece
  fromSq : Square
  toSq : Square
  type : MoveType
  capturedPiece : Option Piece
  promotionPiece : Option PieceType
deriving DecidableEq, Repr

/-- Validation feedback categories, from `types/index.ts`. -/
inductive ValidationFeedbackType where
  | none
  | success
  | error
  | warning
  | info
deriving DecidableEq, Repr

/-- Outcome of `validateMove`; a success result carries an empty reason. -/
structure ValidationResult where
  valid : Bool
  feedbackType : ValidationFeedbackType
  reason : String
deriving DecidableEq, Repr

/-- Game status, from `types/index.ts`. -/
inductive GameStatus where
  | idle
  | active
  | check
  | checkmate
  | stalemate
  | draw
deriving DecidableEq, Repr

/-- The `check` ref of the store. -/
structure CheckState where
  inCheck : Bool
  kingId : Option String
deriving DecidableEq, Repr

/-- The `history` ref of the store. -/
structure GameHistory where
  moves : List Move
  positions : List (List Piece)
  currentIndex : Nat
deriving DecidableEq, Repr

/-- The complete store state (`useGameStore`); the UI `config` flags are
not modelled. -/
structure GameState where
  pieces : List Piece
  currentTurn : PieceColor
  selectedPieceId : Option String
  status : GameStatus
  availableMoves : List Move
  check : CheckState
  history : GameHistory
  lastValidation : ValidationResult
  lastFeedbackSquare : Option Square
deriving DecidableEq, Repr

/-! ## Board configuration (`constants/boardConfig.ts`) -/

/-- File letters, a through h. -/
def FILES : List Char := ['a', 'b', 'c', 'd', 'e', 'f', 'g', 'h']

/-- Rank characters, top row first: index 0 is rank 8. -/
def RANKS : List Char := ['8', '7', '6', '5', '4', '3', '2', '1']

/-! ## Coordinate model (`utils/notationUtils.ts`) -/

/-- JavaScript's `charAt` on the two-character square strings. -/
def charAt (s : String) (n : Nat) : Char :=
  s.toList.getD n ' '

/-- JavaScript's `Array.indexOf`: the index of the first occurrence, `-1` if absent. -/
def charIndexOf (l : List Char) (c : Char) : Int :=
  match l.findIdx? (· == c) with
  | some i => (i : Int)
  | none => -1

/-- `indicesToSquare`: converts file and rank indices to algebraic form;
`none` when either index is outside `[0, 8)`. -/
def indicesToSquare (fileIndex rankIndex : Int) : Option Square :=
  if fileIndex < 0 ∨ 8 ≤ fileIndex ∨ rankIndex < 0 ∨ 8 ≤ rankIndex then
    none
  else
    some (String.mk [FILES.getD fileIndex.toNat ' ', RANKS.getD rankIndex.toNat ' '])

/-- `squareToIndices`: converts algebraic form to file and rank indices. -/
def squareToIndices (square : Square) : Int × Int :=
  (charIndexOf FILES (charAt square 0), charIndexOf RANKS (charAt square 1))

/-! ## Direction vectors (`constants/gameConfig.ts`) -/

/-- Rook direction vectors. -/
def rookDirections : List (Int × Int) := [(0, 1), (1, 0), (0, -1), (-1, 0)]

/-- Bishop direction vectors. -/
def bishopDirections : List (Int × Int) := [(1, 1), (1, -1), (-1, -1), (-1, 1)]

/-- Queen direction vectors (rook moves then bishop moves). -/
def queenDirections : List (Int × Int) :=
  [(0, 1), (1, 0), (0, -1), (-1, 0), (1, 1), (1, -1), (-1, -1), (-1, 1)]

/-- Knight offset table. -/
def knightDirections : List (Int × Int) :=
  [(1, 2), (2, 1), (2, -1), (1, -2), (-1, -2), (-2, -1), (-2, 1), (-1, 2)]

/-- King offset table. -/
def kingDirections : List (Int × Int) :=
  [(0, 1), (1, 0), (0, -1), (-1, 0), (1, 1), (1, -1), (-1, -1), (-1, 1)]

/-- Pawn vectors: forward, double forward, then the two capture diagonals. -/
def pawnDirections : PieceColor → List (Int × Int)
  | .white => [(0, -1), (0, -2), (-1, -1), (1, -1)]
  | .black => [(0, 1), (0, 2), (-1, 1), (1, 1)]

/-! ## Board index and rules (`composables/useChessRules.ts`).
All functions take the piece collection as their first argument, standing
for the closure over `pieces` in `useChessRules(pieces)`. -/

/-- `getPieceAtSquare`: the first piece occupying a square, if any. -/
def getPieceAtSquare (pieces : List Piece) (square : Square) : Option Piece :=
  pieces.find? (fun p => p.square == square)

/-- `isSquareEmpty`. -/
def isSquareEmpty (pieces : List Piece) (square : Square) : Bool :=
  (getPieceAtSquare pieces square).isNone

/-- `hasEnemyPiece`. -/
def hasEnemyPiece (pieces : List Piece) (square : Square) (color : PieceColor) : Bool :=
  match getPieceAtSquare pieces square with
  | some p => p.color != color
  | none => false

/-- `getKing`: the king of the given color, if present. -/
def getKing (pieces : List Piece) (color : PieceColor) : Option Piece :=
  pieces.find? (fun p => p.type == PieceType.king && p.color == color)

/-- The promotable piece types, in the source's order. -/
def promotionPieceTypes : List PieceType :=
  [PieceType.queen, PieceType.rook, PieceType.bishop, PieceType.knight]

/-- `addPawnPromotionMoves`: one promotion-tagged move per promotable type. -/
def addPawnPromotionMoves (piece : Piece) (fromSq toSq : Square)
    (capturedPiece : Option Piece) : List Move :=
  promotionPieceTypes.map fun promotionPiece =>
    { piece := piece, fromSq := fromSq, toSq := toSq, type := MoveType.promotion,
      capturedPiece := capturedPiece, promotionPiece := some promotionPiece }

/-- `generatePawnMoves`: forward block (single push, possible double push)
followed by the two diagonal capture checks.  The promotion branch fires
when the destination's rank character equals `promotionRank`. -/
def generatePawnMoves (pieces : List Piece) (piece : Piece)
    (fileIndex rankIndex : Int) : List Move :=
  let directions := pawnDirections piece.color
  let startingRank : Char := if piece.color = .white then '2' else '7'
  let promotionRank : Char := if piece.color = .white then '1' else '8'
  let forwardDir := directions.getD 0 (0, 0)
  let forwardMoves :=
    match indicesToSquare (fileIndex + forwardDir.1) (rankIndex + forwardDir.2) with
    | some forwardSquare =>
      if isSquareEmpty pieces forwardSquare then
        let firstStep :=
          if charAt forwardSquare 1 = promotionRank then
            addPawnPromotionMoves piece piece.square forwardSquare none
          else
            [{ piece := piece, fromSq := piece.square, toSq := forwardSquare,
               type := MoveType.normal, capturedPiece := none, promotionPiece := none }]
        let doubleStep :=
          if charAt piece.square 1 = startingRank then
            let doubleForwardDir := directions.getD 1 (0, 0)
            match indicesToSquare (fileIndex + doubleForwardDir.1)
                (rankIndex + doubleForwardDir.2) with
            | some doubleSquare =>
              if isSquareEmpty pieces doubleSquare then
                [{ piece := piece, fromSq := piece.square, toSq := doubleSquare,
                   type := MoveType.normal, capturedPiece := none, promotionPiece := none }]
              else []
            | none => []
          else []
        firstStep ++ doubleStep
      else []
    | none => []
  let captureMoves :=
    [directions.getD 2 (0, 0), directions.getD 3 (0, 0)].flatMap fun dir =>
      match indicesToSquare (fileIndex + dir.1) (rankIndex + dir.2) with
      | some captureSquare =>
        if hasEnemyPiece pieces captureSquare piece.color then
          let capturedPiece := getPieceAtSquare pieces captureSquare
          if charAt captureSquare 1 = promotionRank then
            addPawnPromotionMoves piece piece.square captureSquare capturedPiece
          else
            [{ piece := piece, fromSq := piece.square, toSq := captureSquare,
               type := MoveType.capture, capturedPiece := capturedPiece,
               promotionPiece := none }]
        else []
      | none => []
  forwardMoves ++ captureMoves

/-- One ray of a sliding piece: walk until the edge, a capture, or a friendly
piece.  The fuel starts at 8: from any on-board square a ray leaves the board
in at most seven steps, so the fuel never cuts a walk short. -/
def slideRay (pieces : List Piece) (piece : Piece) (dir : Int × Int) :
    Nat → Int → Int → List Move
  | 0, _, _ => []
  | fuel + 1, fileIndex, rankIndex =>
    let newFileIndex := fileIndex + dir.1
    let newRankIndex := rankIndex + dir.2
    match indicesToSquare newFileIndex newRankIndex with
    | none => []
    | some newSquare =>
      match getPieceAtSquare pieces newSquare with
      | none =>
        { piece := piece, fromSq := piece.square, toSq := newSquare,
          type := MoveType.normal, capturedPiece := none, promotionPiece := none }
          :: slideRay pieces piece dir fuel newFileIndex newRankIndex
      | some pieceAtSquare =>
        if pieceAtSquare.color != piece.color then
          [{ piece := piece, fromSq := piece.square, toSq := newSquare,
             type := MoveType.capture, capturedPiece := some pieceAtSquare,
             promotionPiece := none }]
        else []

/-- `generateSlidingMoves` for rook, bishop and queen. -/
def generateSlidingMoves (pieces : List Piece) (piece : Piece)
    (fileIndex rankIndex : Int) : List Move :=
  let directions :=
    if piece.type = PieceType.rook then rookDirections
    else if piece.type = PieceType.bishop then bishopDirections
    else if piece.type = PieceType.queen then queenDirections
    else []
  directions.flatMap fun dir => slideRay pieces piece dir 8 fileIndex rankIndex

/-- `generateKnightMoves`. -/
def generateKnightMoves (pieces : List Piece) (piece : Piece)
    (fileIndex rankIndex : Int) : List Move :=
  knightDirections.flatMap fun dir =>
    match indicesToSquare (fileIndex + dir.1) (rankIndex + dir.2) with
    | none => []
    | some newSquare =>
      match getPieceAtSquare pieces newSquare with
      | none =>
        [{ piece := piece, fromSq := piece.square, toSq := newSquare,
           type := MoveType.normal, capturedPiece := none, promotionPiece := none }]
      | some pieceAtSquare =>
        if pieceAtSquare.color != piece.color then
          [{ piece := piece, fromSq := piece.square, toSq := newSquare,
             type := MoveType.capture, capturedPiece := some pieceAtSquare,
             promotionPiece := none }]
        else []

/-- `generateKingMoves` (castling is absent in the source's executed path). -/
def generateKingMoves (pieces : List Piece) (piece : Piece)
    (fileIndex rankIndex : Int) : List Move :=
  kingDirections.flatMap fun dir =>
    match indicesToSquare (fileIndex + dir.1) (rankIndex + dir.2) with
    | none => []
    | some newSquare =>
      match getPieceAtSquare pieces newSquare with
      | none =>
        [{ piece := piece, fromSq := piece.square, toSq := newSquare,
           type := MoveType.normal, capturedPiece := none, promotionPiece := none }]
      | some pieceAtSquare =>
        if pieceAtSquare.color != piece.color then
          [{ piece := piece, fromSq := piece.square, toSq := newSquare,
             type := MoveType.capture, capturedPiece := some pieceAtSquare,
             promotionPiece := none }]
        else []

/-- `generateMovesForPiece`: dispatch on the piece type. -/
def generateMovesForPiece (pieces : List Piece) (piece : Piece) : List Move :=
  let indices := squareToIndices piece.square
  match piece.type with
  | .pawn => generatePawnMoves pieces piece indices.1 indices.2
  | .rook => generateSlidingMoves pieces piece indices.1 indices.2
  | .bishop => generateSlidingMoves pieces piece indices.1 indices.2
  | .queen => generateSlidingMoves pieces piece indices.1 indices.2
  | .knight => generateKnightMoves pieces piece indices.1 indices.2
  | .king => generateKingMoves pieces piece indices.1 indices.2

/-- `getLegalMovesForColor`: the union of `generateMovesForPiece` over the
color's pieces (the source applies no further filtering here). -/
def getLegalMovesForColor (pieces : List Piece) (color : PieceColor) : List Move :=
  (pieces.filter (fun p => p.color == color)).flatMap fun p =>
    generateMovesForPiece pieces p

/-- `findMove`: the first generated move of the piece at `fromSq` landing on `toSq`. -/
def findMove (pieces : List Piece) (fromSq toSq : Square) : Option Move :=
  match getPieceAtSquare pieces fromSq with
  | none => none
  | some piece => (generateMovesForPiece pieces piece).find? (fun m => m.toSq == toSq)

/-- The other color. -/
def oppositeColor : PieceColor → PieceColor
  | .white => .black
  | .black => .white

/-- `isKingInCheck`: some opposing piece has a capture move onto the king's
square; `false` when the king is absent. -/
def isKingInCheck (pieces : List Piece) (color : PieceColor) : Bool :=
  match getKing pieces color with
  | none => false
  | some king =>
    (pieces.filter (fun p => p.color == oppositeColor color)).any fun p =>
      (generateMovesForPiece pieces p).any fun m =>
        m.toSq == king.square && m.type == MoveType.capture

/-- In-place update of one list element, as JavaScript's indexed assignment
on the simulated array.  Out-of-range indices leave the list unchanged. -/
def listModify : List Piece → Nat → (Piece → Piece) → List Piece
  | [], _, _ => []
  | p :: ps, 0, f => f p :: ps
  | p :: ps, n + 1, f => p :: listModify ps n f

/-- `wouldResultInCheck`: simulate the move on a copy and re-test check.
The source computes both indices on the original array, splices the captured
piece out, then writes through the unadjusted mover index; the embedding
reproduces that order exactly. -/
def wouldResultInCheck (pieces : List Piece) (fromSq toSq : Square)
    (color : PieceColor) : Bool :=
  match pieces.findIdx? (fun p => p.square == fromSq) with
  | none => false
  | some pieceIndex =>
    let afterCapture :=
      match pieces.findIdx? (fun p => p.square == toSq) with
      | some capturedIndex => pieces.eraseIdx capturedIndex
      | none => pieces
    let simulated := listModify afterCapture pieceIndex (fun p => { p with square := toSq })
    isKingInCheck simulated color

end Chess

namespace Chess

/-! ## Initial board (`constants/pieceConfig.ts`) -/

/-- The 32-piece standard starting arrangement, `INITIAL_POSITION`. -/
def INITIAL_POSITION : List Piece := [
  ⟨"wr1", .rook, .white, "a1", false⟩, ⟨"wn1", .knight, .white, "b1", false⟩,
  ⟨"wb1", .bishop, .white, "c1", false⟩, ⟨"wq", .queen, .white, "d1", false⟩,
  ⟨"wk", .king, .white, "e1", false⟩, ⟨"wb2", .bishop, .white, "f1", false⟩,
  ⟨"wn2", .knight, .white, "g1", false⟩, ⟨"wr2", .rook, .white, "h1", false⟩,
  ⟨"wp1", .pawn, .white, "a2", false⟩, ⟨"wp2", .pawn, .white, "b2", false⟩,
  ⟨"wp3", .pawn, .white, "c2", false⟩, ⟨"wp4", .pawn, .white, "d2", false⟩,
  ⟨"wp5", .pawn, .white, "e2", false⟩, ⟨"wp6", .pawn, .white, "f2", false⟩,
  ⟨"wp7", .pawn, .white, "g2", false⟩, ⟨"wp8", .pawn, .white, "h2", false⟩,
  ⟨"br1", .rook, .black, "a8", false⟩, ⟨"bn1", .knight, .black, "b8", false⟩,
  ⟨"bb1", .bishop, .black, "c8", false⟩, ⟨"bq", .queen, .black, "d8", false⟩,
  ⟨"bk", .king, .black, "e8", false⟩, ⟨"bb2", .bishop, .black, "f8", false⟩,
  ⟨"bn2", .knight, .black, "g8", false⟩, ⟨"br2", .rook, .black, "h8", false⟩,
  ⟨"bp1", .pawn, .black, "a7", false⟩, ⟨"bp2", .pawn, .black, "b7", false⟩,
  ⟨"bp3", .pawn, .black, "c7", false⟩, ⟨"bp4", .pawn, .black, "d7", false⟩,
  ⟨"bp5", .pawn, .black, "e7", false⟩, ⟨"bp6", .pawn, .black, "f7", false⟩,
  ⟨"bp7", .pawn, .black, "g7", false⟩, ⟨"bp8", .pawn, .black, "h7", false⟩]

/-! ## Debug fixtures (`constants/debugPositions.ts`) -/

/-- `CHECKMATE_POSITION`. -/
def CHECKMATE_POSITION : List Piece := [
  ⟨"wk", .king, .white, "e1", true⟩, ⟨"wq", .queen, .white, "h7", true⟩,
  ⟨"wr1", .rook, .white, "a1", false⟩, ⟨"bk", .king, .black, "h8", true⟩]

/-- `STALEMATE_POSITION`. -/
def STALEMATE_POSITION : List Piece := [
  ⟨"wk", .king, .white, "g6", true⟩, ⟨"wq", .queen, .white, "g7", true⟩,
  ⟨"bk", .king, .black, "h8", true⟩]

/-- `ONE_MOVE_CHECKMATE`. -/
def ONE_MOVE_CHECKMATE : List Piece := [
  ⟨"wk", .king, .white, "e1", false⟩, ⟨"wq", .queen, .white, "h5", true⟩,
  ⟨"bk", .king, .black, "e8", false⟩, ⟨"bp1", .pawn, .black, "f7", false⟩,
  ⟨"bp2", .pawn, .black, "g7", false⟩]

/-- `ALMOST_STALEMATE`. -/
def ALMOST_STALEMATE : List Piece := [
  ⟨"wk", .king, .white, "g6", true⟩, ⟨"wq", .queen, .white, "a8", true⟩,
  ⟨"bk", .king, .black, "h8", true⟩]

/-- `CAPTURE_TEST_POSITION`. -/
def CAPTURE_TEST_POSITION : List Piece := [
  ⟨"wk", .king, .white, "e1", false⟩, ⟨"wq", .queen, .white, "d1", false⟩,
  ⟨"wp1", .pawn, .white, "e4", true⟩, ⟨"wb1", .bishop, .white, "c4", true⟩,
  ⟨"wn1", .knight, .white, "d4", true⟩, ⟨"bk", .king, .black, "e8", false⟩,
  ⟨"bp1", .pawn, .black, "d5", true⟩, ⟨"bp2", .pawn, .black, "f5", true⟩,
  ⟨"bp3", .pawn, .black, "b5", true⟩, ⟨"br1", .rook, .black, "c6", true⟩]

/-- Selector for `loadDebugPosition`. -/
inductive DebugPositionType where
  | checkmate
  | stalemate
  | oneMove
  | almostStalemate
  | captureTest
deriving DecidableEq, Repr

/-- The piece set each debug selector loads. -/
def debugPieces : DebugPositionType → List Piece
  | .checkmate => CHECKMATE_POSITION
  | .stalemate => STALEMATE_POSITION
  | .oneMove => ONE_MOVE_CHECKMATE
  | .almostStalemate => ALMOST_STALEMATE
  | .captureTest => CAPTURE_TEST_POSITION

/-- The side to move each debug selector sets. -/
def debugTurn : DebugPositionType → PieceColor
  | .checkmate => .black
  | .stalemate => .black
  | .oneMove => .white
  | .almostStalemate => .white
  | .captureTest => .white

/-! ## Validation messages (`constants/validationConfig.ts`) -/

/-- `VALIDATION_MESSAGES.gameNotActive`. -/
def gameNotActiveMsg : String := "The game is not active"

/-- `VALIDATION_MESSAGES.noPieceSelected`. -/
def noPieceSelectedMsg : String := "Select a piece first"

/-- `VALIDATION_MESSAGES.notYourTurn`. -/
def notYourTurnMsg : String := "Not your turn"

/-- `VALIDATION_MESSAGES.invalidPieceMove`. -/
def invalidPieceMoveMsg : String := "This piece cannot move that way"

/-! ## Game state machine (`stores/gameStore.ts`).
Each action becomes a function from the old store state to the new one;
actions with results return them alongside the state. -/

/-- The cleared validation feedback value. -/
def clearedValidation : ValidationResult :=
  { valid := true, feedbackType := .none, reason := "" }

/-- `clearValidationFeedback`. -/
def clearValidationFeedback (s : GameState) : GameState :=
  { s with lastValidation := clearedValidation, lastFeedbackSquare := none }

/-- `canUndo`: the history cursor is past the start. -/
def canUndo (s : GameState) : Bool :=
  s.history.currentIndex != 0

/-- `canRedo`: the history cursor is before the last recorded position. -/
def canRedo (s : GameState) : Bool :=
  decide (s.history.currentIndex < s.history.positions.length - 1)

/-- `updateGameStatus`: recompute `check` and `status` for the side to move.
The move lists consulted are the raw `getLegalMovesForColor` output. -/
def updateGameStatus (s : GameState) : GameState :=
  let kingInCheck := isKingInCheck s.pieces s.currentTurn
  if kingInCheck then
    let king := getKing s.pieces s.currentTurn
    let s := { s with check := { inCheck := true, kingId := king.map Piece.id } }
    let availableMoves := getLegalMovesForColor s.pieces s.currentTurn
    if availableMoves.length > 0 then
      { s with status := .check }
    else
      { s with status := .checkmate }
  else
    let s := { s with check := { inCheck := false, kingId := none } }
    let availableMoves := getLegalMovesForColor s.pieces s.currentTurn
    if availableMoves.length > 0 then
      { s with status := .active }
    else
      { s with status := .stalemate }

/-- `startNewGame` resets every modelled field, so its result is a constant. -/
def startNewGameState : GameState :=
  { pieces := INITIAL_POSITION, currentTurn := .white, selectedPieceId := none,
    status := .active, availableMoves := [],
    check := { inCheck := false, kingId := none },
    history := { moves := [], positions := [INITIAL_POSITION], currentIndex := 0 },
    lastValidation := clearedValidation, lastFeedbackSquare := none }

/-- `selectPiece`. -/
def selectPiece (pieceId : Option String) (s : GameState) : GameState :=
  let s := clearValidationFeedback s
  match pieceId with
  | none => { s with selectedPieceId := none, availableMoves := [] }
  | some pid =>
    if s.status ≠ .active then s
    else
      match s.pieces.find? (fun p => p.id == pid) with
      | some piece =>
        if piece.color ≠ s.currentTurn then
          { s with selectedPieceId := none, availableMoves := [] }
        else
          { s with selectedPieceId := some pid,
                   availableMoves := generateMovesForPiece s.pieces piece }
      | none => { s with selectedPieceId := none, availableMoves := [] }

/-- `isValidMoveTarget`. -/
def isValidMoveTarget (square : Square) (s : GameState) : Bool :=
  match s.selectedPieceId with
  | none => false
  | some pid =>
    match s.pieces.find? (fun p => p.id == pid) with
    | none => false
    | some _ => s.availableMoves.any (fun m => m.toSq == square)

/-- `validateMove`: the four-way validation, recording feedback in the state. -/
def validateMove (fromSq toSq : Square) (s : GameState) :
    ValidationResult × GameState :=
  if s.status ≠ .active then
    let r : ValidationResult :=
      { valid := false, feedbackType := .info, reason := gameNotActiveMsg }
    (r, { s with lastValidation := r, lastFeedbackSquare := some fromSq })
  else
    match getPieceAtSquare s.pieces fromSq with
    | none =>
      let r : ValidationResult :=
        { valid := false, feedbackType := .info, reason := noPieceSelectedMsg }
      (r, { s with lastValidation := r, lastFeedbackSquare := some fromSq })
    | some piece =>
      if piece.color ≠ s.currentTurn then
        let r : ValidationResult :=
          { valid := false, feedbackType := .error, reason := notYourTurnMsg }
        (r, { s with lastValidation := r, lastFeedbackSquare := some fromSq })
      else if ¬ (generateMovesForPiece s.pieces piece).any (fun m => m.toSq == toSq) then
        let r : ValidationResult :=
          { valid := false, feedbackType := .error, reason := invalidPieceMoveMsg }
        (r, { s with lastValidation := r, lastFeedbackSquare := some fromSq })
      else
        let r : ValidationResult :=
          { valid := true, feedbackType := .success, reason := "" }
        (r, { s with lastValidation := r, lastFeedbackSquare := some toSq })

/-- `addMove`: truncate any redo tail, then append and advance the cursor. -/
def addMove (move : Move) (newPosition : List Piece) (h : GameHistory) : GameHistory :=
  let h :=
    if h.currentIndex < h.positions.length - 1 then
      { h with moves := h.moves.take h.currentIndex,
               positions := h.positions.take (h.currentIndex + 1) }
    else h
  { moves := h.moves ++ [move], positions := h.positions ++ [newPosition],
    currentIndex := h.currentIndex + 1 }

/-- `executeMove`: remove the capture, relocate (and possibly promote) the
mover, flip the turn, refresh status, record history, clear selection. -/
def executeMove (move : Move) (s : GameState) : GameState :=
  let newPieces :=
    (s.pieces.filter fun p =>
        match move.capturedPiece with
        | some c => !(p.id == c.id)
        | none => true).map fun p =>
      if p.id == move.piece.id then
        match move.type, move.promotionPiece with
        | .promotion, some promotionPiece =>
          { p with square := move.toSq, type := promotionPiece, hasMoved := true }
        | _, _ => { p with square := move.toSq, hasMoved := true }
      else p
  let s := { s with pieces := newPieces }
  let s := { s with currentTurn := oppositeColor s.currentTurn }
  let s := updateGameStatus s
  let s := { s with history := addMove move newPieces s.history }
  { s with selectedPieceId := none, availableMoves := [] }

/-- `movePiece`: validate, look the move up, execute, refresh feedback and
status; the boolean reports success. -/
def movePiece (fromSq toSq : Square) (s : GameState) : GameState × Bool :=
  let v := validateMove fromSq toSq s
  if ¬ v.1.valid then (v.2, false)
  else
    match findMove s.pieces fromSq toSq with
    | none => (v.2, false)
    | some move =>
      let s := executeMove move v.2
      let s := clearValidationFeedback s
      let s := updateGameStatus s
      (s, true)

/-- `handleUndoMove`. -/
def handleUndoMove (s : GameState) : GameState :=
  if canUndo s then
    let h := { s.history with currentIndex := s.history.currentIndex - 1 }
    let previousPosition := h.positions.getD h.currentIndex []
    let s := { s with history := h, pieces := previousPosition,
                      currentTurn := oppositeColor s.currentTurn,
                      selectedPieceId := none, availableMoves := [] }
    let s := clearValidationFeedback s
    updateGameStatus s
  else s

/-- `handleRedoMove` (the label refresh on the redone move is display-only
and not modelled). -/
def handleRedoMove (s : GameState) : GameState :=
  if canRedo s then
    let h := { s.history with currentIndex := s.history.currentIndex + 1 }
    let nextPosition := h.positions.getD h.currentIndex []
    let s := { s with history := h, pieces := nextPosition,
                      currentTurn := oppositeColor s.currentTurn,
                      selectedPieceId := none, availableMoves := [] }
    let s := clearValidationFeedback s
    updateGameStatus s
  else s

/-- `handleSquareClick`. -/
def handleSquareClick (square : Square) (s : GameState) : GameState :=
  if s.status ≠ .active then s
  else
    let targetPiece := getPieceAtSquare s.pieces square
    match s.selectedPieceId with
    | some pid =>
      match s.pieces.find? (fun p => p.id == pid) with
      | none => { s with selectedPieceId := none }
      | some selected =>
        if selected.square == square then { s with selectedPieceId := none }
        else
          match targetPiece with
          | some target =>
            if target.color ≠ s.currentTurn then
              if isValidMoveTarget square s then (movePiece selected.square square s).1
              else s
            else selectPiece (some target.id) s
          | none =>
            if isValidMoveTarget square s then (movePiece selected.square square s).1
            else { s with selectedPieceId := none }
    | none =>
      match targetPiece with
      | some target =>
        if target.color = s.currentTurn then selectPiece (some target.id) s else s
      | none => s

/-- `loadDebugPosition`. -/
def loadDebugPosition (positionType : DebugPositionType) (s : GameState) : GameState :=
  let s := if s.status = .idle then { s with status := .active } else s
  let s := { s with pieces := debugPieces positionType,
                    currentTurn := debugTurn positionType,
                    selectedPieceId := none, availableMoves := [] }
  let s := updateGameStatus s
  let s := { s with history := { moves := [], positions := [s.pieces], currentIndex := 0 } }
  clearValidationFeedback s

end Chess

namespace Chess

/-! ## Derived notions used by the verification -/

/-- The status decision `updateGameStatus` implements, as a function of the
piece set and the side to move: the four-way priority computed over the raw
`getLegalMovesForColor` list. -/
def statusRule (pieces : List Piece) (color : PieceColor) : GameStatus :=
  if isKingInCheck pieces color then
    if (getLegalMovesForColor pieces color).length > 0 then .check else .checkmate
  else
    if (getLegalMovesForColor pieces color).length > 0 then .active else .stalemate

/-- Modelled from the spec (§4.5 Legal Move Filter): the legal move set as the
spec words it — pseudo-legal moves with every move where `wouldResultInCheck`
is true removed.  The source's `getLegalMovesForColor` applies no such
filter; this definition exists to compare the two. -/
def legalMovesForColorSpec (pieces : List Piece) (color : PieceColor) : List Move :=
  (getLegalMovesForColor pieces color).filter fun m =>
    !wouldResultInCheck pieces m.fromSq m.toSq color

/-- Run a sequence of `movePiece` calls, `none` as soon as one fails. -/
def play : GameState → List (Square × Square) → Option GameState
  | s, [] => some s
  | s, (fromSq, toSq) :: rest =>
    let r := movePiece fromSq toSq s
    if r.2 then play r.1 rest else none

/-- `handleUndoMove` applied `n` times. -/
def undoN : Nat → GameState → GameState
  | 0, s => s
  | n + 1, s => undoN n (handleUndoMove s)

/-- `handleRedoMove` applied `n` times. -/
def redoN : Nat → GameState → GameState
  | 0, s => s
  | n + 1, s => redoN n (handleRedoMove s)

/-- The cursor sits at the end of the history and the live pieces agree with
the snapshot there. -/
def HistAligned (s : GameState) : Prop :=
  s.history.currentIndex + 1 = s.history.positions.length ∧
  s.history.positions.getD s.history.currentIndex [] = s.pieces

/-- The cursor is in range and the live pieces agree with the snapshot at the
cursor (holds also mid-undo/redo). -/
def CursorAligned (s : GameState) : Prop :=
  s.history.currentIndex < s.history.positions.length ∧
  s.pieces = s.history.positions.getD s.history.currentIndex []

/-- The history shape invariant of claim C8. -/
def HistoryInv (s : GameState) : Prop :=
  s.history.positions.length = s.history.moves.length + 1 ∧
  s.history.currentIndex ≤ s.history.positions.length - 1 ∧
  (s.history.positions.getD 0 [] = INITIAL_POSITION ∨
    ∃ pt, s.history.positions.getD 0 [] = debugPieces pt)

/-- States reachable through the public entry points listed in C8:
`startNewGame`, `movePiece`, undo, redo, `loadDebugPosition`. -/
inductive Reachable : GameState → Prop where
  | newGame : Reachable startNewGameState
  | move (fromSq toSq : Square) {s : GameState} :
      Reachable s → Reachable (movePiece fromSq toSq s).1
  | undo {s : GameState} : Reachable s → Reachable (handleUndoMove s)
  | redo {s : GameState} : Reachable s → Reachable (handleRedoMove s)
  | debug (pt : DebugPositionType) {s : GameState} :
      Reachable s → Reachable (loadDebugPosition pt s)

/-! ## Concrete fixtures for counterexamples and witnesses -/

/-- A fresh active game over an arbitrary piece set, as the engine must
accept (spec §6: debug/fixture positions are ordinary inputs). -/
def mkActiveState (pieces : List Piece) (turn : PieceColor) : GameState :=
  { pieces := pieces, currentTurn := turn, selectedPieceId := none,
    status := .active, availableMoves := [],
    check := { inCheck := false, kingId := none },
    history := { moves := [], positions := [pieces], currentIndex := 0 },
    lastValidation := clearedValidation, lastFeedbackSquare := none }

/-- White rook on e2 is pinned against the king on e1 by the rook on e8. -/
def pinnedRookPieces : List Piece :=
  [⟨"wk", .king, .white, "e1", true⟩, ⟨"wr1", .rook, .white, "e2", true⟩,
   ⟨"br1", .rook, .black, "e8", true⟩, ⟨"bk", .king, .black, "h8", true⟩]

/-- The pinned-rook position as an active game, white to move. -/
def pinnedRookState : GameState := mkActiveState pinnedRookPieces .white

/-- White to move can mate on the back rank with Ra2-a8. -/
def backRankPieces : List Piece :=
  [⟨"wk", .king, .white, "e1", true⟩, ⟨"wr1", .rook, .white, "a2", true⟩,
   ⟨"bk", .king, .black, "h8", true⟩, ⟨"bp1", .pawn, .black, "g7", false⟩,
   ⟨"bp2", .pawn, .black, "h7", false⟩]

/-- The back-rank position as an active game, white to move. -/
def backRankState : GameState := mkActiveState backRankPieces .white

/-- White pawn one step below the far rank, destination a8 empty. -/
def promoWhitePawn : Piece := ⟨"wp", .pawn, .white, "a7", true⟩

/-- Board holding `promoWhitePawn` and the two kings. -/
def promoWhitePieces : List Piece :=
  [⟨"wk", .king, .white, "e1", true⟩, ⟨"bk", .king, .black, "e8", true⟩, promoWhitePawn]

/-- Black pawn one step above rank 1, destination h1 empty. -/
def promoBlackPawn : Piece := ⟨"bp", .pawn, .black, "h2", true⟩

/-- Board holding `promoBlackPawn` and the two kings. -/
def promoBlackPieces : List Piece :=
  [⟨"wk", .king, .white, "e8", true⟩, ⟨"bk", .king, .black, "a8", true⟩, promoBlackPawn]

/-- A white pawn away from its starting rank whose `hasMoved` flag is false. -/
def unmovedD4Pawn : Piece := ⟨"wp", .pawn, .white, "d4", false⟩

/-- Board holding only `unmovedD4Pawn`. -/
def unmovedD4Pieces : List Piece := [unmovedD4Pawn]

/-- The game reached by loading the one-move-checkmate fixture and playing
Qh5xf7, which leaves black in check. -/
def oneMoveCheckState : GameState :=
  (movePiece "h5" "f7" (loadDebugPosition .oneMove startNewGameState)).1

/-- A tiny active three-piece game, white to move: kings plus a white rook. -/
def tinyPieces : List Piece :=
  [⟨"wk", .king, .white, "e1", true⟩, ⟨"wr1", .rook, .white, "a1", true⟩,
   ⟨"bk", .king, .black, "e8", true⟩]

/-- `tinyPieces` as an active game. -/
def tinyState : GameState := mkActiveState tinyPieces .white

/-- `tinyPieces` frozen in a `check` status (for exercising the blocked
entry points; the concrete pieces are irrelevant to those code paths). -/
def tinyCheckState : GameState := { tinyState with status := .check }

end Chess

namespace Chess

/-- The piece transformation `executeMove` applies to the board. -/
def executeMovePieces (move : Move) (pieces : List Piece) : List Piece :=
  (pieces.filter fun p =>
      match move.capturedPiece with
      | some c => !(p.id == c.id)
      | none => true).map fun p =>
    if p.id == move.piece.id then
      match move.type, move.promotionPiece with
      | .promotion, some promotionPiece =>
        { p with square := move.toSq, type := promotionPiece, hasMoved := true }
      | _, _ => { p with square := move.toSq, hasMoved := true }
    else p


/-- The position after 1. e4 from a new game. -/
def e2e4State : GameState := (movePiece "e2" "e4" startNewGameState).1

/-- The position after undoing 1. e4 and playing 1. d4 instead. -/
def d2d4AfterUndoState : GameState :=
  (movePiece "d2" "d4" (handleUndoMove e2e4State)).1

/-- The tiny game after white plays Ra1-a2. -/
def tinyAfterMove : GameState := (movePiece "a1" "a2" tinyState).1

/-- A small stand-alone move record used to exercise the history manager. -/
def sampleMove : Move :=
  { piece := ⟨"wp1", .pawn, .white, "a2", false⟩, fromSq := "a2", toSq := "a3",
    type := MoveType.normal, capturedPiece := none, promotionPiece := none }

/-- A mid-history state: two snapshots recorded, cursor back at the start. -/
def sampleHistory : GameHistory :=
  { moves := [sampleMove], positions := [tinyPieces, pinnedRookPieces],
    currentIndex := 0 }

/-- Pieces for exercising `executeMove`: white rook a1 can capture the black
pawn on a7. -/
def execPieces : List Piece :=
  [⟨"wk", .king, .white, "e1", true⟩, ⟨"wr1", .rook, .white, "a1", true⟩,
   ⟨"bk", .king, .black, "e8", true⟩, ⟨"bp1", .pawn, .black, "a7", true⟩]

/-- `execPieces` as an active game, white to move. -/
def execState : GameState := mkActiveState execPieces .white

/-- The rook-takes-pawn move on `execPieces`. -/
def execCaptureMove : Move :=
  { piece := ⟨"wr1", .rook, .white, "a1", true⟩, fromSq := "a1", toSq := "a7",
    type := MoveType.capture, capturedPiece := some ⟨"bp1", .pawn, .black, "a7", true⟩,
    promotionPiece := none }

/-- The white pawn on e2 in the initial position. -/
def e2Pawn : Piece := ⟨"wp5", .pawn, .white, "e2", false⟩

end Chess

namespace Chess

/-! ## Structural lemmas about the state machine -/

theorem updateGameStatus_pieces (s : GameState) :
    (updateGameStatus s).pieces = s.pieces := by
  simp only [updateGameStatus]
  split <;> split <;> rfl

theorem updateGameStatus_currentTurn (s : GameState) :
    (updateGameStatus s).currentTurn = s.currentTurn := by
  simp only [updateGameStatus]
  split <;> split <;> rfl

theorem updateGameStatus_history (s : GameState) :
    (updateGameStatus s).history = s.history := by
  simp only [updateGameStatus]
  split <;> split <;> rfl

theorem updateGameStatus_selectedPieceId (s : GameState) :
    (updateGameStatus s).selectedPieceId = s.selectedPieceId := by
  simp only [updateGameStatus]
  split <;> split <;> rfl

theorem updateGameStatus_availableMoves (s : GameState) :
    (updateGameStatus s).availableMoves = s.availableMoves := by
  simp only [updateGameStatus]
  split <;> split <;> rfl

theorem updateGameStatus_lastValidation (s : GameState) :
    (updateGameStatus s).lastValidation = s.lastValidation := by
  simp only [updateGameStatus]
  split <;> split <;> rfl

theorem updateGameStatus_status (s : GameState) :
    (updateGameStatus s).status = statusRule s.pieces s.currentTurn := by
  simp only [updateGameStatus, statusRule]
  split <;> split <;> rfl

theorem validateMove_snd (fromSq toSq : Square) (s : GameState) :
    ∃ sq, (validateMove fromSq toSq s).2 =
      { s with lastValidation := (validateMove fromSq toSq s).1,
               lastFeedbackSquare := some sq } := by
  unfold validateMove
  split
  · exact ⟨fromSq, rfl⟩
  · split
    · exact ⟨fromSq, rfl⟩
    · split
      · exact ⟨fromSq, rfl⟩
      · split
        · exact ⟨fromSq, rfl⟩
        · exact ⟨toSq, rfl⟩

theorem validateMove_not_active {s : GameState} (h : s.status ≠ .active)
    (fromSq toSq : Square) :
    validateMove fromSq toSq s =
      ({ valid := false, feedbackType := .info, reason := gameNotActiveMsg },
       { s with lastValidation :=
                  { valid := false, feedbackType := .info, reason := gameNotActiveMsg },
                lastFeedbackSquare := some fromSq }) := by
  unfold validateMove
  rw [if_pos h]

theorem validateMove_wrong_color {s : GameState} {fromSq : Square} {piece : Piece}
    (hactive : s.status = .active)
    (hpiece : getPieceAtSquare s.pieces fromSq = some piece)
    (hcolor : piece.color ≠ s.currentTurn) (toSq : Square) :
    validateMove fromSq toSq s =
      ({ valid := false, feedbackType := .error, reason := notYourTurnMsg },
       { s with lastValidation :=
                  { valid := false, feedbackType := .error, reason := notYourTurnMsg },
                lastFeedbackSquare := some fromSq }) := by
  unfold validateMove
  rw [if_neg (by simp [hactive]), hpiece]
  simp [hcolor]

theorem movePiece_of_invalid {fromSq toSq : Square} {s : GameState}
    (h : (validateMove fromSq toSq s).1.valid = false) :
    movePiece fromSq toSq s = ((validateMove fromSq toSq s).2, false) := by
  unfold movePiece
  simp [h]

end Chess

namespace Chess

theorem executeMove_pieces (move : Move) (s : GameState) :
    (executeMove move s).pieces = executeMovePieces move s.pieces := by
  simp only [executeMove, executeMovePieces, updateGameStatus_pieces]

theorem executeMove_currentTurn (move : Move) (s : GameState) :
    (executeMove move s).currentTurn = oppositeColor s.currentTurn := by
  simp only [executeMove, updateGameStatus_currentTurn]

theorem executeMove_history (move : Move) (s : GameState) :
    (executeMove move s).history =
      addMove move (executeMove move s).pieces s.history := by
  simp only [executeMove, updateGameStatus_history, updateGameStatus_pieces]

theorem executeMove_selectedPieceId (move : Move) (s : GameState) :
    (executeMove move s).selectedPieceId = none := by
  simp only [executeMove]

theorem executeMove_availableMoves (move : Move) (s : GameState) :
    (executeMove move s).availableMoves = [] := by
  simp only [executeMove]

theorem movePiece_success {fromSq toSq : Square} {s s' : GameState}
    (h : movePiece fromSq toSq s = (s', true)) :
    ∃ move, findMove s.pieces fromSq toSq = some move ∧
      s'.pieces = executeMovePieces move s.pieces ∧
      s'.currentTurn = oppositeColor s.currentTurn ∧
      s'.history = addMove move s'.pieces s.history ∧
      s'.status = statusRule s'.pieces s'.currentTurn ∧
      s'.selectedPieceId = none ∧
      s'.availableMoves = [] := by
  obtain ⟨sq, hv⟩ := validateMove_snd fromSq toSq s
  cases hval : (validateMove fromSq toSq s).1.valid with
  | false =>
    rw [movePiece_of_invalid hval] at h
    simp at h
  | true =>
    unfold movePiece at h
    rw [if_neg (by simp [hval])] at h
    cases hm : findMove s.pieces fromSq toSq with
    | none => rw [hm] at h; simp at h
    | some move =>
      rw [hm] at h
      have hs : updateGameStatus (clearValidationFeedback
          (executeMove move (validateMove fromSq toSq s).2)) = s' := by
        have := congrArg Prod.fst h
        simpa using this
      refine ⟨move, rfl, ?_, ?_, ?_, ?_, ?_, ?_⟩ <;> rw [← hs]
      · simp only [updateGameStatus_pieces, clearValidationFeedback, executeMove_pieces, hv]
      · simp only [updateGameStatus_currentTurn, clearValidationFeedback,
          executeMove_currentTurn, hv]
      · simp only [updateGameStatus_history, clearValidationFeedback, executeMove_history,
          updateGameStatus_pieces, executeMove_pieces, hv]
      · rw [updateGameStatus_status, updateGameStatus_pieces, updateGameStatus_currentTurn]
      · simp only [updateGameStatus_selectedPieceId, clearValidationFeedback,
          executeMove_selectedPieceId]
      · simp only [updateGameStatus_availableMoves, clearValidationFeedback,
          executeMove_availableMoves]

end Chess

namespace Chess

theorem canUndo_iff (s : GameState) : canUndo s = true ↔ s.history.currentIndex ≠ 0 := by
  simp [canUndo]

theorem canRedo_iff (s : GameState) :
    canRedo s = true ↔ s.history.currentIndex < s.history.positions.length - 1 := by
  simp [canRedo]

theorem handleUndoMove_of_canUndo {s : GameState} (h : canUndo s = true) :
    (handleUndoMove s).history.moves = s.history.moves ∧
    (handleUndoMove s).history.positions = s.history.positions ∧
    (handleUndoMove s).history.currentIndex = s.history.currentIndex - 1 ∧
    (handleUndoMove s).pieces =
      s.history.positions.getD (s.history.currentIndex - 1) [] ∧
    (handleUndoMove s).currentTurn = oppositeColor s.currentTurn := by
  unfold handleUndoMove
  rw [if_pos h]
  refine ⟨?_, ?_, ?_, ?_, ?_⟩ <;>
    simp only [updateGameStatus_history, updateGameStatus_pieces,
      updateGameStatus_currentTurn, clearValidationFeedback]

theorem handleRedoMove_of_canRedo {s : GameState} (h : canRedo s = true) :
    (handleRedoMove s).history.moves = s.history.moves ∧
    (handleRedoMove s).history.positions = s.history.positions ∧
    (handleRedoMove s).history.currentIndex = s.history.currentIndex + 1 ∧
    (handleRedoMove s).pieces =
      s.history.positions.getD (s.history.currentIndex + 1) [] ∧
    (handleRedoMove s).currentTurn = oppositeColor s.currentTurn := by
  unfold handleRedoMove
  rw [if_pos h]
  refine ⟨?_, ?_, ?_, ?_, ?_⟩ <;>
    simp only [updateGameStatus_history, updateGameStatus_pieces,
      updateGameStatus_currentTurn, clearValidationFeedback]

theorem handleRedoMove_of_not_canRedo {s : GameState} (h : canRedo s = false) :
    handleRedoMove s = s := by
  unfold handleRedoMove
  rw [h]
  rfl

/-- `addMove` at the end of the history: pure append. -/
theorem addMove_at_end {h : GameHistory}
    (hend : h.currentIndex + 1 = h.positions.length)
    (move : Move) (p : List Piece) :
    addMove move p h =
      { moves := h.moves ++ [move], positions := h.positions ++ [p],
        currentIndex := h.currentIndex + 1 } := by
  unfold addMove
  rw [if_neg (by omega)]

theorem getD_append_length (l : List (List Piece)) (x d : List Piece) :
    (l ++ [x]).getD l.length d = x := by
  induction l with
  | nil => rfl
  | cons a t ih => simp [ih]

theorem getD_zero_of_head (a : List Piece) (t : List (List Piece)) (d : List Piece) :
    (a :: t).getD 0 d = a := rfl

end Chess

namespace Chess

/-- `addMove` below the end of the history: truncate then append. -/
theorem addMove_truncate {h : GameHistory}
    (hlt : h.currentIndex < h.positions.length - 1)
    (move : Move) (newPosition : List Piece) :
    addMove move newPosition h =
      { moves := h.moves.take h.currentIndex ++ [move],
        positions := h.positions.take (h.currentIndex + 1) ++ [newPosition],
        currentIndex := h.currentIndex + 1 } := by
  unfold addMove
  rw [if_pos hlt]

end Chess

namespace Chess

/-- A successful `movePiece` from an end-of-history state stays end-of-history
and appends exactly one snapshot. -/
theorem movePiece_success_hist {fromSq toSq : Square} {s s' : GameState}
    (h : movePiece fromSq toSq s = (s', true)) (ha : HistAligned s) :
    HistAligned s' ∧
    s'.history.positions = s.history.positions ++ [s'.pieces] ∧
    s'.history.currentIndex = s.history.currentIndex + 1 := by
  obtain ⟨move, -, -, -, hhist, -, -⟩ := movePiece_success h
  obtain ⟨hend, hget⟩ := ha
  rw [addMove_at_end hend] at hhist
  refine ⟨⟨?_, ?_⟩, ?_, ?_⟩
  · rw [hhist]
    simp
    omega
  · rw [hhist]
    simp only
    rw [show s.history.currentIndex + 1 = s.history.positions.length from hend]
    exact getD_append_length _ _ _
  · rw [hhist]
  · rw [hhist]

/-- Invariant carried along a successful `play` run. -/
theorem play_spec :
    ∀ (ms : List (Square × Square)) (s s' : GameState),
      play s ms = some s' → HistAligned s →
      HistAligned s' ∧
      s'.history.currentIndex = s.history.currentIndex + ms.length ∧
      ∃ tail, s'.history.positions = s.history.positions ++ tail ∧
        tail.length = ms.length := by
  intro ms
  induction ms with
  | nil =>
    intro s s' hp ha
    cases hp
    exact ⟨ha, by simp, [], by simp, rfl⟩
  | cons m rest ih =>
    intro s s' hp ha
    obtain ⟨f, t⟩ := m
    unfold play at hp
    by_cases hr : (movePiece f t s).2 = true
    · simp only [hr, if_true] at hp
      have hmp : movePiece f t s = ((movePiece f t s).1, true) := by
        rw [← hr]
      obtain ⟨ha1, hpos1, hci1⟩ := movePiece_success_hist hmp ha
      obtain ⟨ha', hci', tail, hpos', hlen⟩ := ih _ _ hp ha1
      refine ⟨ha', ?_, [(movePiece f t s).1.pieces] ++ tail, ?_, ?_⟩
      · rw [hci', hci1]
        simp
        omega
      · rw [hpos', hpos1]
        simp
      · simp [hlen]
    · simp [hr] at hp

end Chess

namespace Chess

theorem undoN_spec :
    ∀ (n : Nat) (s : GameState), n ≤ s.history.currentIndex → CursorAligned s →
      (undoN n s).history.moves = s.history.moves ∧
      (undoN n s).history.positions = s.history.positions ∧
      (undoN n s).history.currentIndex = s.history.currentIndex - n ∧
      CursorAligned (undoN n s) := by
  intro n
  induction n with
  | zero => intro s _ hc; exact ⟨rfl, rfl, by simp [undoN], hc⟩
  | succ n ih =>
    intro s hn hc
    have hcu : canUndo s = true := (canUndo_iff s).2 (by omega)
    obtain ⟨hm, hp, hci, hpieces, -⟩ := handleUndoMove_of_canUndo hcu
    have hc1 : CursorAligned (handleUndoMove s) := by
      refine ⟨?_, ?_⟩
      · rw [hci, hp]
        exact lt_of_le_of_lt (Nat.sub_le _ _) hc.1
      · rw [hci, hp, hpieces]
    have hn1 : n ≤ (handleUndoMove s).history.currentIndex := by
      rw [hci]; omega
    obtain ⟨im, ip, ici, ic⟩ := ih (handleUndoMove s) hn1 hc1
    have hstep : undoN (n + 1) s = undoN n (handleUndoMove s) := rfl
    refine ⟨?_, ?_, ?_, ?_⟩
    · rw [hstep, im, hm]
    · rw [hstep, ip, hp]
    · rw [hstep, ici, hci]; omega
    · rw [hstep]; exact ic

theorem redoN_spec :
    ∀ (n : Nat) (s : GameState),
      s.history.currentIndex + n < s.history.positions.length → CursorAligned s →
      (redoN n s).history.moves = s.history.moves ∧
      (redoN n s).history.positions = s.history.positions ∧
      (redoN n s).history.currentIndex = s.history.currentIndex + n ∧
      CursorAligned (redoN n s) := by
  intro n
  induction n with
  | zero => intro s _ hc; exact ⟨rfl, rfl, by simp [redoN], hc⟩
  | succ n ih =>
    intro s hn hc
    have hcr : canRedo s = true := (canRedo_iff s).2 (by omega)
    obtain ⟨hm, hp, hci, hpieces, -⟩ := handleRedoMove_of_canRedo hcr
    have hc1 : CursorAligned (handleRedoMove s) := by
      refine ⟨?_, ?_⟩
      · rw [hci, hp]; omega
      · rw [hci, hp, hpieces]
    have hn1 : (handleRedoMove s).history.currentIndex + n <
        (handleRedoMove s).history.positions.length := by
      rw [hci, hp]; omega
    obtain ⟨im, ip, ici, ic⟩ := ih (handleRedoMove s) hn1 hc1
    have hstep : redoN (n + 1) s = redoN n (handleRedoMove s) := rfl
    refine ⟨?_, ?_, ?_, ?_⟩
    · rw [hstep, im, hm]
    · rw [hstep, ip, hp]
    · rw [hstep, ici, hci]; omega
    · rw [hstep]; exact ic

end Chess

namespace Chess

theorem startNewGame_histAligned : HistAligned startNewGameState :=
  ⟨rfl, rfl⟩

end Chess

namespace Chess

theorem movePiece_failure_fields {fromSq toSq : Square} {s : GameState}
    (h : (movePiece fromSq toSq s).2 = false) :
    (movePiece fromSq toSq s).1.pieces = s.pieces ∧
    (movePiece fromSq toSq s).1.currentTurn = s.currentTurn ∧
    (movePiece fromSq toSq s).1.history = s.history ∧
    (movePiece fromSq toSq s).1.status = s.status ∧
    (movePiece fromSq toSq s).1.selectedPieceId = s.selectedPieceId ∧
    (movePiece fromSq toSq s).1.availableMoves = s.availableMoves ∧
    (movePiece fromSq toSq s).1.check = s.check := by
  obtain ⟨sq, hv⟩ := validateMove_snd fromSq toSq s
  have hfst : (movePiece fromSq toSq s).1 = (validateMove fromSq toSq s).2 := by
    unfold movePiece
    by_cases hval : (validateMove fromSq toSq s).1.valid = true
    · rw [if_neg (by simp [hval])]
      cases hm : findMove s.pieces fromSq toSq with
      | none => rfl
      | some move =>
        exfalso
        unfold movePiece at h
        rw [if_neg (by simp [hval]), hm] at h
        simp at h
    · rw [if_pos (by simpa using hval)]
  rw [hfst, hv]
  exact ⟨rfl, rfl, rfl, rfl, rfl, rfl, rfl⟩

theorem handleUndoMove_of_not_canUndo {s : GameState} (h : canUndo s = false) :
    handleUndoMove s = s := by
  unfold handleUndoMove
  rw [h]
  rfl

theorem loadDebugPosition_history (pt : DebugPositionType) (s : GameState) :
    (loadDebugPosition pt s).history =
      { moves := [], positions := [debugPieces pt], currentIndex := 0 } := by
  unfold loadDebugPosition
  simp only [clearValidationFeedback, updateGameStatus_pieces]

theorem addMove_historyInv {h : GameHistory} (move : Move) (p : List Piece)
    (hlen : h.positions.length = h.moves.length + 1)
    (hci : h.currentIndex ≤ h.positions.length - 1) :
    (addMove move p h).positions.length = (addMove move p h).moves.length + 1 ∧
    (addMove move p h).currentIndex ≤ (addMove move p h).positions.length - 1 ∧
    (addMove move p h).positions.getD 0 [] = h.positions.getD 0 [] := by
  obtain ⟨mvs, ps, ci⟩ := h
  simp only at hlen hci
  unfold addMove
  by_cases htr : ci < ps.length - 1
  · simp only [if_pos htr]
    cases ps with
    | nil => simp at hlen
    | cons a rest =>
      simp only [List.length_cons] at hlen htr
      refine ⟨?_, ?_, ?_⟩
      · simp only [List.length_append, List.length_take, List.length_cons,
          List.length_nil]
        omega
      · simp only [List.length_append, List.length_take, List.length_cons,
          List.length_nil]
        omega
      · simp [List.take_cons]
  · simp only [if_neg htr]
    cases ps with
    | nil => simp at hlen
    | cons a rest =>
      simp only [List.length_cons] at hlen hci htr
      refine ⟨?_, ?_, ?_⟩
      · simp only [List.length_append, List.length_cons, List.length_nil]
        omega
      · simp only [List.length_append, List.length_cons, List.length_nil]
        omega
      · rfl

end Chess

namespace Chess

end Chess

namespace Chess

theorem indicesToSquare_bounds {f r : Int} {sq : Square}
    (h : indicesToSquare f r = some sq) :
    0 ≤ f ∧ f < 8 ∧ 0 ≤ r ∧ r < 8 := by
  unfold indicesToSquare at h
  split at h
  · exact absurd h (by simp)
  · rename_i hc
    push_neg at hc
    exact ⟨hc.1, hc.2.1, hc.2.2.1, hc.2.2.2⟩

theorem indicesToSquare_eq {f r : Int} {sq : Square}
    (h : indicesToSquare f r = some sq) :
    sq = String.mk [FILES.getD f.toNat ' ', RANKS.getD r.toNat ' '] := by
  unfold indicesToSquare at h
  split at h
  · exact absurd h (by simp)
  · exact (Option.some.inj h).symm

theorem charAt_one_of_indicesToSquare {f r : Int} {sq : Square}
    (h : indicesToSquare f r = some sq) :
    charAt sq 1 = RANKS.getD r.toNat ' ' := by
  rw [indicesToSquare_eq h]
  rfl

theorem ranks_getD_fin_inj : ∀ i j : Fin 8,
    RANKS.getD i.val ' ' = RANKS.getD j.val ' ' → i = j := by decide

theorem indicesToSquare_rank_ne {f₁ f₂ r₁ r₂ : Int} {s₁ s₂ : Square}
    (h₁ : indicesToSquare f₁ r₁ = some s₁) (h₂ : indicesToSquare f₂ r₂ = some s₂)
    (hne : r₁ ≠ r₂) : s₁ ≠ s₂ := by
  obtain ⟨-, -, hr₁0, hr₁8⟩ := indicesToSquare_bounds h₁
  obtain ⟨-, -, hr₂0, hr₂8⟩ := indicesToSquare_bounds h₂
  intro heq
  have hchar : RANKS.getD r₁.toNat ' ' = RANKS.getD r₂.toNat ' ' := by
    rw [← charAt_one_of_indicesToSquare h₁, ← charAt_one_of_indicesToSquare h₂, heq]
  have hfin : (⟨r₁.toNat, by omega⟩ : Fin 8) = ⟨r₂.toNat, by omega⟩ :=
    ranks_getD_fin_inj _ _ hchar
  have : r₁.toNat = r₂.toNat := Fin.mk.injEq .. ▸ hfin
  omega

theorem squareToIndices_round {f r : Int} {sq : Square}
    (h : indicesToSquare f r = some sq) :
    squareToIndices sq = (f, r) := by
  obtain ⟨hf0, hf8, hr0, hr8⟩ := indicesToSquare_bounds h
  rw [indicesToSquare_eq h]
  interval_cases f <;> interval_cases r <;> decide

theorem mem_addPawnPromotionMoves_type {piece : Piece} {fromSq toSq : Square}
    {cap : Option Piece} {m : Move}
    (h : m ∈ addPawnPromotionMoves piece fromSq toSq cap) :
    m.type = MoveType.promotion := by
  simp only [addPawnPromotionMoves, promotionPieceTypes, List.mem_map] at h
  obtain ⟨pp, -, rfl⟩ := h
  rfl

end Chess

namespace Chess

theorem black_eq_white_false : (PieceColor.black = PieceColor.white) = False := by
  simp

/-- No element of the pawn capture block is tagged `normal`. -/
theorem pawn_captureMoves_not_normal {pieces : List Piece} {piece : Piece}
    {f r : Int} {color : PieceColor} {promoRank : Char} {m : Move}
    (dirs : List (Int × Int))
    (hm : m ∈ dirs.flatMap fun dir =>
        match indicesToSquare (f + dir.1) (r + dir.2) with
        | some captureSquare =>
          if hasEnemyPiece pieces captureSquare color = true then
            if charAt captureSquare 1 = promoRank then
              addPawnPromotionMoves piece piece.square captureSquare
                (getPieceAtSquare pieces captureSquare)
            else
              [{ piece := piece, fromSq := piece.square, toSq := captureSquare,
                 type := MoveType.capture,
                 capturedPiece := getPieceAtSquare pieces captureSquare,
                 promotionPiece := none }]
          else []
        | none => []) :
    m.type = MoveType.capture ∨ m.type = MoveType.promotion := by
  rcases List.mem_flatMap.1 hm with ⟨dir, -, hbody⟩
  split at hbody
  · split at hbody
    · split at hbody
      · exact Or.inr (mem_addPawnPromotionMoves_type hbody)
      · rcases List.mem_singleton.1 hbody with rfl
        exact Or.inl rfl
    · simp at hbody
  · simp at hbody

theorem generatePawnMoves_double_push_iff
    (pieces : List Piece) (piece : Piece) (f r : Int) (fsq dsq : Square)
    (hpt : piece.type = PieceType.pawn)
    (hsq : indicesToSquare f r = some piece.square)
    (hfs : indicesToSquare (f + ((pawnDirections piece.color).getD 0 (0, 0)).1)
            (r + ((pawnDirections piece.color).getD 0 (0, 0)).2) = some fsq)
    (hds : indicesToSquare (f + ((pawnDirections piece.color).getD 1 (0, 0)).1)
            (r + ((pawnDirections piece.color).getD 1 (0, 0)).2) = some dsq) :
    ({ piece := piece, fromSq := piece.square, toSq := dsq, type := MoveType.normal,
       capturedPiece := none, promotionPiece := none } : Move)
        ∈ generateMovesForPiece pieces piece ↔
      (charAt piece.square 1 = (if piece.color = PieceColor.white then '2' else '7') ∧
       isSquareEmpty pieces fsq = true ∧ isSquareEmpty pieces dsq = true) := by
  have hround := squareToIndices_round hsq
  have hgen : generateMovesForPiece pieces piece = generatePawnMoves pieces piece f r := by
    unfold generateMovesForPiece
    rw [hround, hpt]
  rw [hgen]
  cases hcol : piece.color with
  | white =>
    simp only [hcol, pawnDirections, List.getD_cons_zero, List.getD_cons_succ] at hfs hds
    have hneq : fsq ≠ dsq := indicesToSquare_rank_ne hfs hds (by omega)
    unfold generatePawnMoves
    simp only [hcol, pawnDirections, List.getD_cons_zero, List.getD_cons_succ,
      hfs, hds, if_pos, if_true, eq_self_iff_true]
    by_cases h1 : isSquareEmpty pieces fsq = true
    · by_cases h2 : charAt piece.square 1 = '2'
      · by_cases h3 : isSquareEmpty pieces dsq = true
        · rw [if_pos h1, if_pos h2, if_pos h3]
          exact iff_of_true
            (List.mem_append.2 (Or.inl (List.mem_append.2
              (Or.inr (List.mem_singleton.2 rfl))))) ⟨h2, h1, h3⟩
        · refine iff_of_false ?_ (by simp [h3])
          intro hmem
          rw [if_pos h1, if_pos h2, if_neg h3, List.append_nil] at hmem
          rcases List.mem_append.1 hmem with hf | hcap
          · split at hf
            · simpa using mem_addPawnPromotionMoves_type hf
            · rcases List.mem_singleton.1 hf with h
              exact hneq (congrArg Move.toSq h).symm
          · simpa using pawn_captureMoves_not_normal _ hcap
      · refine iff_of_false ?_ (by simp [h2])
        intro hmem
        rw [if_pos h1, if_neg h2, List.append_nil] at hmem
        rcases List.mem_append.1 hmem with hf | hcap
        · split at hf
          · simpa using mem_addPawnPromotionMoves_type hf
          · rcases List.mem_singleton.1 hf with h
            exact hneq (congrArg Move.toSq h).symm
        · simpa using pawn_captureMoves_not_normal _ hcap
    · refine iff_of_false ?_ (by simp [h1])
      intro hmem
      rw [if_neg h1, List.nil_append] at hmem
      simpa using pawn_captureMoves_not_normal _ hmem
  | black =>
    simp only [hcol, pawnDirections, List.getD_cons_zero, List.getD_cons_succ] at hfs hds
    have hneq : fsq ≠ dsq := indicesToSquare_rank_ne hfs hds (by omega)
    unfold generatePawnMoves
    simp only [hcol, pawnDirections, List.getD_cons_zero, List.getD_cons_succ,
      hfs, hds, if_pos, if_true, eq_self_iff_true, black_eq_white_false, if_false]
    by_cases h1 : isSquareEmpty pieces fsq = true
    · by_cases h2 : charAt piece.square 1 = '7'
      · by_cases h3 : isSquareEmpty pieces dsq = true
        · rw [if_pos h1, if_pos h2, if_pos h3]
          exact iff_of_true
            (List.mem_append.2 (Or.inl (List.mem_append.2
              (Or.inr (List.mem_singleton.2 rfl))))) ⟨h2, h1, h3⟩
        · refine iff_of_false ?_ (by simp [h3])
          intro hmem
          rw [if_pos h1, if_pos h2, if_neg h3, List.append_nil] at hmem
          rcases List.mem_append.1 hmem with hf | hcap
          · split at hf
            · simpa using mem_addPawnPromotionMoves_type hf
            · rcases List.mem_singleton.1 hf with h
              exact hneq (congrArg Move.toSq h).symm
          · simpa using pawn_captureMoves_not_normal _ hcap
      · refine iff_of_false ?_ (by simp [h2])
        intro hmem
        rw [if_pos h1, if_neg h2, List.append_nil] at hmem
        rcases List.mem_append.1 hmem with hf | hcap
        · split at hf
          · simpa using mem_addPawnPromotionMoves_type hf
          · rcases List.mem_singleton.1 hf with h
            exact hneq (congrArg Move.toSq h).symm
        · simpa using pawn_captureMoves_not_normal _ hcap
    · refine iff_of_false ?_ (by simp [h1])
      intro hmem
      rw [if_neg h1, List.nil_append] at hmem
      simpa using pawn_captureMoves_not_normal _ hmem

end Chess

namespace Chess

/-! ## Claims -/

/-- C1 (counterexample): in the pinned-rook position the list `selectPiece`
stores in `availableMoves`, and the `getLegalMovesForColor` union, both
contain a move for which `wouldResultInCheck` is true — the returned set is
not the pseudo-legal set with self-check moves removed. -/
theorem C1_counterexample :
    (∃ m ∈ (selectPiece (some "wr1") pinnedRookState).availableMoves,
      wouldResultInCheck pinnedRookPieces m.fromSq m.toSq PieceColor.white = true) ∧
    (∃ m ∈ getLegalMovesForColor pinnedRookPieces PieceColor.white,
      wouldResultInCheck pinnedRookPieces m.fromSq m.toSq PieceColor.white = true) := by
  decide

/-- C1 (amended): `selectPiece` on an own piece of the side to move in an
active game populates `availableMoves` with the raw pseudo-legal
`generateMovesForPiece` output, and every move of `getLegalMovesForColor` is
a pseudo-legal move of one of the color's pieces; no `wouldResultInCheck`
filtering is applied anywhere in these paths. -/
theorem C1_holds (s : GameState) (pid : String) (piece : Piece)
    (hactive : s.status = GameStatus.active)
    (hfind : s.pieces.find? (fun p => p.id == pid) = some piece)
    (hcolor : piece.color = s.currentTurn) :
    (selectPiece (some pid) s).availableMoves = generateMovesForPiece s.pieces piece ∧
    (selectPiece (some pid) s).selectedPieceId = some pid ∧
    ∀ m ∈ getLegalMovesForColor s.pieces s.currentTurn,
      ∃ p ∈ s.pieces, p.color = s.currentTurn ∧ m ∈ generateMovesForPiece s.pieces p := by
  refine ⟨?_, ?_, ?_⟩
  · unfold selectPiece
    simp only [clearValidationFeedback, hfind]
    rw [if_neg (by simp [hactive]), if_neg (by simp [hcolor])]
  · unfold selectPiece
    simp only [clearValidationFeedback, hfind]
    rw [if_neg (by simp [hactive]), if_neg (by simp [hcolor])]
  · intro m hm
    rcases List.mem_flatMap.1 hm with ⟨p, hp, hmp⟩
    rcases List.mem_filter.1 hp with ⟨hmem, hcol⟩
    exact ⟨p, hmem, by simpa using hcol, hmp⟩

/-- C1 (witness): the amended statement evaluated on the pinned-rook game. -/
theorem C1_witness :
    (selectPiece (some "wr1") pinnedRookState).availableMoves =
      generateMovesForPiece pinnedRookState.pieces
        ⟨"wr1", .rook, .white, "e2", true⟩ ∧
    (selectPiece (some "wr1") pinnedRookState).selectedPieceId = some "wr1" ∧
    ∀ m ∈ getLegalMovesForColor pinnedRookState.pieces pinnedRookState.currentTurn,
      ∃ p ∈ pinnedRookState.pieces, p.color = pinnedRookState.currentTurn ∧
        m ∈ generateMovesForPiece pinnedRookState.pieces p :=
  C1_holds pinnedRookState "wr1" ⟨"wr1", .rook, .white, "e2", true⟩
    rfl (by decide) rfl

/-- C3 (counterexample): a reachable `check` state from which `handleUndoMove`
returns the game to `active` — the game can leave `check` without any move
being executed, so `check` is not a dead end. -/
theorem C3_counterexample :
    (movePiece "h5" "f7" (loadDebugPosition .oneMove startNewGameState)).2 = true ∧
    oneMoveCheckState.status = GameStatus.check ∧
    (handleUndoMove oneMoveCheckState).status = GameStatus.active := by
  decide

/-- C3 (amended): whenever status equals `check`, `movePiece` always fails
with the game-not-active reason leaving pieces, turn, history and status
untouched, `selectPiece` never establishes a selection, and
`handleSquareClick` does nothing — no move can be executed from a `check`
state; the status can still leave `check` through undo/redo or a reset. -/
theorem C3_holds (s : GameState) (fromSq toSq : Square) (pid : String) (sq : Square)
    (hcheck : s.status = GameStatus.check) :
    (movePiece fromSq toSq s).2 = false ∧
    (movePiece fromSq toSq s).1.lastValidation.reason = gameNotActiveMsg ∧
    (movePiece fromSq toSq s).1.pieces = s.pieces ∧
    (movePiece fromSq toSq s).1.currentTurn = s.currentTurn ∧
    (movePiece fromSq toSq s).1.history = s.history ∧
    (movePiece fromSq toSq s).1.status = GameStatus.check ∧
    (selectPiece (some pid) s).selectedPieceId = s.selectedPieceId ∧
    (selectPiece (some pid) s).availableMoves = s.availableMoves ∧
    handleSquareClick sq s = s := by
  have hne : s.status ≠ GameStatus.active := by simp [hcheck]
  have hval := validateMove_not_active hne fromSq toSq
  have hfalse : (validateMove fromSq toSq s).1.valid = false := by rw [hval]
  have hmp := movePiece_of_invalid hfalse
  refine ⟨?_, ?_, ?_, ?_, ?_, ?_, ?_, ?_, ?_⟩
  · rw [hmp]
  · rw [hmp, hval]
  · rw [hmp, hval]
  · rw [hmp, hval]
  · rw [hmp, hval]
  · rw [hmp, hval]
    exact hcheck
  · unfold selectPiece
    simp only [clearValidationFeedback]
    rw [if_pos hne]
  · unfold selectPiece
    simp only [clearValidationFeedback]
    rw [if_pos hne]
  · unfold handleSquareClick
    rw [if_pos hne]

/-- C3 (witness): the amended statement evaluated on a small `check` state. -/
theorem C3_witness :
    (movePiece "a1" "a2" tinyCheckState).2 = false ∧
    (movePiece "a1" "a2" tinyCheckState).1.lastValidation.reason = gameNotActiveMsg ∧
    (movePiece "a1" "a2" tinyCheckState).1.pieces = tinyCheckState.pieces ∧
    (movePiece "a1" "a2" tinyCheckState).1.currentTurn = tinyCheckState.currentTurn ∧
    (movePiece "a1" "a2" tinyCheckState).1.history = tinyCheckState.history ∧
    (movePiece "a1" "a2" tinyCheckState).1.status = GameStatus.check ∧
    (selectPiece (some "wr1") tinyCheckState).selectedPieceId =
      tinyCheckState.selectedPieceId ∧
    (selectPiece (some "wr1") tinyCheckState).availableMoves =
      tinyCheckState.availableMoves ∧
    handleSquareClick "a2" tinyCheckState = tinyCheckState :=
  C3_holds tinyCheckState "a1" "a2" "wr1" "a2" rfl

/-- C4: the promotion branch compares against rank character '1' for white
and '8' for black, ranks a pawn of that color can never reach, so a pawn
stepping onto the far rank yields a single `normal` move and never the four
promotion-tagged moves the spec requires. -/
theorem C4_holds :
    generateMovesForPiece promoWhitePieces promoWhitePawn =
      [{ piece := promoWhitePawn, fromSq := "a7", toSq := "a8",
         type := MoveType.normal, capturedPiece := none, promotionPiece := none }] ∧
    generateMovesForPiece promoBlackPieces promoBlackPawn =
      [{ piece := promoBlackPawn, fromSq := "h2", toSq := "h1",
         type := MoveType.normal, capturedPiece := none, promotionPiece := none }] := by
  decide

/-- C5: attempting to move an opponent piece in an active game fails with the
not-your-turn reason and leaves the pieces, the side to move and the history
exactly as they were. -/
theorem C5_holds (s : GameState) (fromSq toSq : Square) (piece : Piece)
    (hactive : s.status = GameStatus.active)
    (hat : getPieceAtSquare s.pieces fromSq = some piece)
    (hcolor : piece.color ≠ s.currentTurn) :
    (movePiece fromSq toSq s).2 = false ∧
    (movePiece fromSq toSq s).1.pieces = s.pieces ∧
    (movePiece fromSq toSq s).1.currentTurn = s.currentTurn ∧
    (movePiece fromSq toSq s).1.history = s.history ∧
    (movePiece fromSq toSq s).1.lastValidation =
      { valid := false, feedbackType := .error, reason := notYourTurnMsg } := by
  have hval := validateMove_wrong_color hactive hat hcolor toSq
  have hfalse : (validateMove fromSq toSq s).1.valid = false := by rw [hval]
  have hmp := movePiece_of_invalid hfalse
  refine ⟨?_, ?_, ?_, ?_, ?_⟩ <;> rw [hmp, hval]

/-- C5 (witness): trying to move black's e7 pawn from a fresh game. -/
theorem C5_witness :
    (movePiece "e7" "e5" startNewGameState).2 = false ∧
    (movePiece "e7" "e5" startNewGameState).1.pieces = startNewGameState.pieces ∧
    (movePiece "e7" "e5" startNewGameState).1.currentTurn =
      startNewGameState.currentTurn ∧
    (movePiece "e7" "e5" startNewGameState).1.history = startNewGameState.history ∧
    (movePiece "e7" "e5" startNewGameState).1.lastValidation =
      { valid := false, feedbackType := .error, reason := notYourTurnMsg } :=
  C5_holds startNewGameState "e7" "e5" ⟨"bp5", .pawn, .black, "e7", false⟩
    rfl (by decide) (by decide)

/-- C9 (counterexample): a white pawn on d4 with `hasMoved = false` and both
d5 and d6 empty gets no forward-two move — the generator keys the double push
on the starting rank, not on the `hasMoved` flag. -/
theorem C9_counterexample :
    unmovedD4Pawn.hasMoved = false ∧
    isSquareEmpty unmovedD4Pieces "d5" = true ∧
    isSquareEmpty unmovedD4Pieces "d6" = true ∧
    ¬ ∃ m ∈ generateMovesForPiece unmovedD4Pieces unmovedD4Pawn, m.toSq = "d6" := by
  decide

end Chess

namespace Chess

/-- C2 (counterexample): after the executed move Ra2-a8 black is in check and
has zero legal moves in the spec's §4.5 sense, yet the recomputed status is
`check`, not `checkmate` — the code counts unfiltered pseudo-legal moves. -/
theorem C2_counterexample :
    (movePiece "a2" "a8" backRankState).2 = true ∧
    (movePiece "a2" "a8" backRankState).1.status = GameStatus.check ∧
    isKingInCheck (movePiece "a2" "a8" backRankState).1.pieces
      (movePiece "a2" "a8" backRankState).1.currentTurn = true ∧
    legalMovesForColorSpec (movePiece "a2" "a8" backRankState).1.pieces
      (movePiece "a2" "a8" backRankState).1.currentTurn = [] := by
  decide

/-- C2 (amended): after every executed move the recomputed status follows the
four-rule priority computed over the raw pseudo-legal `getLegalMovesForColor`
list (self-check moves are not excluded): checkmate when in check with that
list empty, else check when in check, else stalemate when the list is empty,
else active. -/
theorem C2_holds {fromSq toSq : Square} {s s' : GameState}
    (h : movePiece fromSq toSq s = (s', true)) :
    s'.status =
      (if isKingInCheck s'.pieces s'.currentTurn = true then
        (if getLegalMovesForColor s'.pieces s'.currentTurn = [] then
          GameStatus.checkmate
         else GameStatus.check)
       else
        (if getLegalMovesForColor s'.pieces s'.currentTurn = [] then
          GameStatus.stalemate
         else GameStatus.active)) := by
  obtain ⟨move, -, -, -, -, hstat, -, -⟩ := movePiece_success h
  rw [hstat]
  by_cases hl : getLegalMovesForColor s'.pieces s'.currentTurn = [] <;>
    simp [statusRule, hl, List.length_pos]

/-- C2 (witness): the amended statement evaluated on the tiny game after
Ra1-a2. -/
theorem C2_witness :
    tinyAfterMove.status =
      (if isKingInCheck tinyAfterMove.pieces tinyAfterMove.currentTurn = true then
        (if getLegalMovesForColor tinyAfterMove.pieces tinyAfterMove.currentTurn = []
         then GameStatus.checkmate else GameStatus.check)
       else
        (if getLegalMovesForColor tinyAfterMove.pieces tinyAfterMove.currentTurn = []
         then GameStatus.stalemate else GameStatus.active)) :=
  @C2_holds "a1" "a2" tinyState tinyAfterMove (by rfl)

/-- C6: for any sequence of successfully executed moves from a new game,
undoing N times restores the starting piece list and redoing N times restores
the exact final piece list, ids included. -/
theorem C6_holds (ms : List (Square × Square)) (s' : GameState)
    (h : play startNewGameState ms = some s') :
    (undoN ms.length s').pieces = INITIAL_POSITION ∧
    (redoN ms.length (undoN ms.length s')).pieces = s'.pieces := by
  obtain ⟨ha', hci, tail, hpos, hlen⟩ := play_spec ms _ _ h startNewGame_histAligned
  have hci' : s'.history.currentIndex = ms.length := by
    simpa [startNewGameState] using hci
  have hlenpos : s'.history.positions.length = ms.length + 1 := by
    rw [hpos]
    simp [startNewGameState, hlen]
  have hcur : CursorAligned s' := ⟨by omega, ha'.2.symm⟩
  obtain ⟨um, up, uci, uc⟩ := undoN_spec ms.length s' (by omega) hcur
  have hu0 : (undoN ms.length s').history.currentIndex = 0 := by
    rw [uci, hci']
    omega
  constructor
  · rw [uc.2, up, hu0, hpos]
    simp [startNewGameState]
  · have hrn : (undoN ms.length s').history.currentIndex + ms.length <
        (undoN ms.length s').history.positions.length := by
      rw [hu0, up]
      omega
    obtain ⟨rm, rp, rci, rc⟩ := redoN_spec ms.length (undoN ms.length s') hrn uc
    rw [rc.2, rp, up, rci, hu0]
    have hval : s'.history.positions.getD (0 + ms.length) [] = s'.pieces := by
      rw [← hci'] at *
      simpa using ha'.2
    exact hval

/-- C6 (witness): one move (1. e4), one undo, one redo. -/
theorem C6_witness :
    (undoN 1 e2e4State).pieces = INITIAL_POSITION ∧
    (redoN 1 (undoN 1 e2e4State)).pieces = e2e4State.pieces :=
  C6_holds [("e2", "e4")] e2e4State (by rfl)

/-- C8: in every state reachable through the public entry points the history
satisfies `positions.length = moves.length + 1`, the cursor stays within
`[0, positions.length - 1]`, and `positions[0]` is the starting snapshot of
the running game (the initial arrangement or a loaded debug arrangement). -/
theorem C8_holds (s : GameState) (h : Reachable s) : HistoryInv s := by
  induction h with
  | newGame =>
    exact ⟨rfl, by simp [startNewGameState], Or.inl rfl⟩
  | move fromSq toSq hr ih =>
    rename_i s0
    obtain ⟨h1, h2, h3⟩ := ih
    cases hb : (movePiece fromSq toSq s0).2 with
    | false =>
      obtain ⟨-, -, hh, -⟩ := movePiece_failure_fields hb
      exact ⟨by rw [hh]; exact h1, by rw [hh]; exact h2, by rw [hh]; exact h3⟩
    | true =>
      have hmp : movePiece fromSq toSq s0 = ((movePiece fromSq toSq s0).1, true) := by
        rw [← hb]
      obtain ⟨move, -, -, -, hh, -, -⟩ := movePiece_success hmp
      obtain ⟨a1, a2, a3⟩ :=
        addMove_historyInv move (movePiece fromSq toSq s0).1.pieces h1 h2
      refine ⟨by rw [hh]; exact a1, by rw [hh]; exact a2, ?_⟩
      rw [hh, a3]
      exact h3
  | undo hr ih =>
    rename_i s0
    obtain ⟨h1, h2, h3⟩ := ih
    by_cases hc : canUndo s0 = true
    · obtain ⟨um, up, uci, -, -⟩ := handleUndoMove_of_canUndo hc
      refine ⟨by rw [up, um]; exact h1, ?_, by rw [up]; exact h3⟩
      rw [up, uci]
      omega
    · rw [handleUndoMove_of_not_canUndo (by simpa using hc)]
      exact ⟨h1, h2, h3⟩
  | redo hr ih =>
    rename_i s0
    obtain ⟨h1, h2, h3⟩ := ih
    by_cases hc : canRedo s0 = true
    · obtain ⟨rm, rp, rci, -, -⟩ := handleRedoMove_of_canRedo hc
      have hlt : s0.history.currentIndex < s0.history.positions.length - 1 :=
        (canRedo_iff s0).1 hc
      refine ⟨by rw [rp, rm]; exact h1, ?_, by rw [rp]; exact h3⟩
      rw [rp, rci]
      omega
    · rw [handleRedoMove_of_not_canRedo (by simpa using hc)]
      exact ⟨h1, h2, h3⟩
  | debug pt hr ih =>
    rename_i s0
    rw [HistoryInv, loadDebugPosition_history]
    exact ⟨rfl, by simp, Or.inr ⟨pt, rfl⟩⟩

/-- C8 (witness): the invariant holds at the freshly started game. -/
theorem C8_witness : HistoryInv startNewGameState :=
  C8_holds startNewGameState Reachable.newGame

/-- C9 (amended): the move generator emits the forward-two move exactly when
the pawn stands on its color's starting rank (rank character '2' for white,
'7' for black) and the one-ahead and two-ahead squares are on the board and
empty; the `hasMoved` flag is not consulted. -/
theorem C9_holds
    (pieces : List Piece) (piece : Piece) (f r : Int) (fsq dsq : Square)
    (hpt : piece.type = PieceType.pawn)
    (hsq : indicesToSquare f r = some piece.square)
    (hfs : indicesToSquare (f + ((pawnDirections piece.color).getD 0 (0, 0)).1)
            (r + ((pawnDirections piece.color).getD 0 (0, 0)).2) = some fsq)
    (hds : indicesToSquare (f + ((pawnDirections piece.color).getD 1 (0, 0)).1)
            (r + ((pawnDirections piece.color).getD 1 (0, 0)).2) = some dsq) :
    ({ piece := piece, fromSq := piece.square, toSq := dsq, type := MoveType.normal,
       capturedPiece := none, promotionPiece := none } : Move)
        ∈ generateMovesForPiece pieces piece ↔
      (charAt piece.square 1 = (if piece.color = PieceColor.white then '2' else '7') ∧
       isSquareEmpty pieces fsq = true ∧ isSquareEmpty pieces dsq = true) :=
  generatePawnMoves_double_push_iff pieces piece f r fsq dsq hpt hsq hfs hds

/-- C9 (witness): the characterization evaluated for the e2 pawn of the
starting position (double push to e4 present). -/
theorem C9_witness :
    ({ piece := e2Pawn, fromSq := e2Pawn.square, toSq := "e4",
       type := MoveType.normal, capturedPiece := none, promotionPiece := none } : Move)
        ∈ generateMovesForPiece INITIAL_POSITION e2Pawn ↔
      (charAt e2Pawn.square 1 =
        (if e2Pawn.color = PieceColor.white then '2' else '7') ∧
       isSquareEmpty INITIAL_POSITION "e3" = true ∧
       isSquareEmpty INITIAL_POSITION "e4" = true) :=
  C9_holds INITIAL_POSITION e2Pawn 4 6 "e3" "e4" rfl (by decide) (by decide) (by decide)

end Chess

namespace Chess

/-- C7: recording a move with the cursor before the end first discards every
move after the cursor and every position after the cursor's snapshot, then
appends and advances; consequently after one undo followed by a successful
new move, `canRedo` is false and `handleRedoMove` is a no-op. -/
theorem C7_holds :
    (∀ (h : GameHistory) (move : Move) (newPosition : List Piece),
        h.currentIndex < h.positions.length - 1 →
        addMove move newPosition h =
          { moves := h.moves.take h.currentIndex ++ [move],
            positions := h.positions.take (h.currentIndex + 1) ++ [newPosition],
            currentIndex := h.currentIndex + 1 }) ∧
    (∀ (s s' : GameState) (fromSq toSq : Square),
        HistAligned s → canUndo s = true →
        movePiece fromSq toSq (handleUndoMove s) = (s', true) →
        canRedo s' = false ∧ handleRedoMove s' = s') := by
  constructor
  · intro h move newPosition hlt
    exact addMove_truncate hlt move newPosition
  · intro s s' fromSq toSq ha hcu hmp
    obtain ⟨hend, -⟩ := ha
    have hci0 : s.history.currentIndex ≠ 0 := (canUndo_iff s).1 hcu
    obtain ⟨hum, hup, huci, -, -⟩ := handleUndoMove_of_canUndo hcu
    obtain ⟨move, -, -, -, hhist, -, -, -⟩ := movePiece_success hmp
    have hlt : (handleUndoMove s).history.currentIndex <
        (handleUndoMove s).history.positions.length - 1 := by
      rw [huci, hup]
      omega
    rw [addMove_truncate hlt] at hhist
    have hrci : s'.history.currentIndex = s.history.currentIndex := by
      rw [hhist]
      simp only
      rw [huci]
      omega
    have hrlen : s'.history.positions.length = s.history.currentIndex + 1 := by
      rw [hhist]
      simp only [List.length_append, List.length_take, List.length_cons,
        List.length_nil]
      rw [hup, huci]
      omega
    have hcr : canRedo s' = false := by
      simp only [canRedo, hrci, hrlen, decide_eq_false_iff_not]
      omega
    exact ⟨hcr, handleRedoMove_of_not_canRedo hcr⟩

/-- C7 (witness): truncation on a two-snapshot history with the cursor at the
start, and the undo-then-new-move scenario played from 1. e4. -/
theorem C7_witness :
    (addMove sampleMove unmovedD4Pieces sampleHistory =
      { moves := sampleHistory.moves.take sampleHistory.currentIndex ++ [sampleMove],
        positions :=
          sampleHistory.positions.take (sampleHistory.currentIndex + 1) ++
            [unmovedD4Pieces],
        currentIndex := sampleHistory.currentIndex + 1 }) ∧
    (canRedo d2d4AfterUndoState = false ∧
      handleRedoMove d2d4AfterUndoState = d2d4AfterUndoState) :=
  ⟨C7_holds.1 sampleHistory sampleMove unmovedD4Pieces (by decide),
   C7_holds.2 e2e4State d2d4AfterUndoState "d2" "d4" ⟨by decide, by decide⟩
     (by decide) (by rfl)⟩

/-- C10: executing a move removes exactly the captured piece, rewrites only
the moving piece (square, `hasMoved`, and type on promotion, id preserved),
keeps every other piece untouched, flips the side to move, clears the
selection, and appends the move with the resulting position to the history. -/
theorem C10_holds (move : Move) (s : GameState)
    (hcap : ∀ c, move.capturedPiece = some c → c.id ≠ move.piece.id) :
    (∀ p ∈ s.pieces, p.id ≠ move.piece.id →
        (∀ c, move.capturedPiece = some c → p.id ≠ c.id) →
        p ∈ (executeMove move s).pieces) ∧
    (∀ p ∈ s.pieces, p.id = move.piece.id →
        (match move.type, move.promotionPiece with
          | MoveType.promotion, some promotionPiece =>
            { p with square := move.toSq, type := promotionPiece, hasMoved := true }
          | _, _ => { p with square := move.toSq, hasMoved := true })
          ∈ (executeMove move s).pieces) ∧
    (∀ c, move.capturedPiece = some c →
        ∀ q ∈ (executeMove move s).pieces, q.id ≠ c.id) ∧
    (∀ q ∈ (executeMove move s).pieces, ∃ p ∈ s.pieces,
        q = p ∨
        q = (match move.type, move.promotionPiece with
          | MoveType.promotion, some promotionPiece =>
            { p with square := move.toSq, type := promotionPiece, hasMoved := true }
          | _, _ => { p with square := move.toSq, hasMoved := true })) ∧
    (executeMove move s).currentTurn = oppositeColor s.currentTurn ∧
    (executeMove move s).selectedPieceId = none ∧
    (executeMove move s).availableMoves = [] ∧
    (executeMove move s).history = addMove move (executeMove move s).pieces s.history := by
  refine ⟨?_, ?_, ?_, ?_, executeMove_currentTurn move s,
    executeMove_selectedPieceId move s, executeMove_availableMoves move s,
    executeMove_history move s⟩
  · intro p hmem hne hnc
    rw [executeMove_pieces]
    unfold executeMovePieces
    apply List.mem_map.2
    refine ⟨p, List.mem_filter.2 ⟨hmem, ?_⟩, ?_⟩
    · cases hc : move.capturedPiece with
      | none => rfl
      | some c => simpa using hnc c hc
    · rw [if_neg (by simpa using hne)]
  · intro p hmem hid
    rw [executeMove_pieces]
    unfold executeMovePieces
    apply List.mem_map.2
    refine ⟨p, List.mem_filter.2 ⟨hmem, ?_⟩, ?_⟩
    · cases hc : move.capturedPiece with
      | none => rfl
      | some c =>
        have : p.id ≠ c.id := by
          rw [hid]
          exact fun hh => hcap c hc hh.symm
        simpa using this
    · rw [if_pos (by simpa using hid)]
  · intro c hc q hq
    rw [executeMove_pieces] at hq
    unfold executeMovePieces at hq
    rcases List.mem_map.1 hq with ⟨p, hpf, rfl⟩
    rcases List.mem_filter.1 hpf with ⟨-, hpred⟩
    rw [hc] at hpred
    have hpc : p.id ≠ c.id := by simpa using hpred
    by_cases hid : (p.id == move.piece.id) = true
    · rw [if_pos hid]
      split <;> exact hpc
    · rw [if_neg hid]
      exact hpc
  · intro q hq
    rw [executeMove_pieces] at hq
    unfold executeMovePieces at hq
    rcases List.mem_map.1 hq with ⟨p, hpf, rfl⟩
    rcases List.mem_filter.1 hpf with ⟨hmem, -⟩
    refine ⟨p, hmem, ?_⟩
    by_cases hid : (p.id == move.piece.id) = true
    · right
      rw [if_pos hid]
    · left
      rw [if_neg hid]

/-- C10 (witness): rook takes pawn on the four-piece board. -/
theorem C10_witness :
    (∀ p ∈ execState.pieces, p.id ≠ execCaptureMove.piece.id →
        (∀ c, execCaptureMove.capturedPiece = some c → p.id ≠ c.id) →
        p ∈ (executeMove execCaptureMove execState).pieces) ∧
    (∀ p ∈ execState.pieces, p.id = execCaptureMove.piece.id →
        (match execCaptureMove.type, execCaptureMove.promotionPiece with
          | MoveType.promotion, some promotionPiece =>
            { p with square := execCaptureMove.toSq, type := promotionPiece,
                     hasMoved := true }
          | _, _ => { p with square := execCaptureMove.toSq, hasMoved := true })
          ∈ (executeMove execCaptureMove execState).pieces) ∧
    (∀ c, execCaptureMove.capturedPiece = some c →
        ∀ q ∈ (executeMove execCaptureMove execState).pieces, q.id ≠ c.id) ∧
    (∀ q ∈ (executeMove execCaptureMove execState).pieces, ∃ p ∈ execState.pieces,
        q = p ∨
        q = (match execCaptureMove.type, execCaptureMove.promotionPiece with
          | MoveType.promotion, some promotionPiece =>
            { p with square := execCaptureMove.toSq, type := promotionPiece,
                     hasMoved := true }
          | _, _ => { p with square := execCaptureMove.toSq, hasMoved := true })) ∧
    (executeMove execCaptureMove execState).currentTurn =
      oppositeColor execState.currentTurn ∧
    (executeMove execCaptureMove execState).selectedPieceId = none ∧
    (executeMove execCaptureMove execState).availableMoves = [] ∧
    (executeMove execCaptureMove execState).history =
      addMove execCaptureMove (executeMove execCaptureMove execState).pieces
        execState.history :=
  C10_holds execCaptureMove execState (by decide)

end Chess
